import Mathlib

/-!
Verification of the stream-audio server against its specification.

The Rust sources are shallowly embedded: each Rust function relevant to a
claim becomes a Lean function over explicit state; machine integers become
Nat or Int with explicit wrapping where the Rust code can wrap; fallible
code returns Except or Option; the interleaving of the producer thread and
a ThreadBuffer worker is modelled as a list of atomic operations, each of
which corresponds to one critical section of the Rust code (the queue mutex
serialises them).
-/

namespace StreamAudio

/-! ## Bounded byte queue with a worker thread (src/thread_buffer.rs)

`ThreadQueue.que` is a `Mutex<Option<VecDeque<u8>>>`: `some q` is the open
queue holding bytes `q`, `none` is the closed sentinel installed by
`stop_and_join`.  `delivered` records the chunks the worker has passed to
`DataReceiver::new_slice`, in call order (the worker copies at most
`BUFFER_SIZE` bytes out of the queue under the lock and then calls
`new_slice` outside it; since there is a single worker this collapses to
one atomic step). -/

def BUFFER_SIZE : Nat := 4096

structure TBState where
  que : Option (List Nat)
  delivered : List (List Nat)
deriving Repr, DecidableEq

def TBState.init : TBState := ⟨some [], []⟩

/-- `ThreadBuffer::write_data`: locks the queue; if it is still open
(`Some`), appends the bytes and notifies the worker; in every case the
function returns `Ok(())`. -/
def write_data (s : TBState) (data : List Nat) : TBState × Except Unit Unit :=
  match s.que with
  | some q => ({ s with que := some (q ++ data) }, Except.ok ())
  | none => (s, Except.ok ())

/-- `ThreadBuffer::stop_and_join`: replaces the queue contents with `None`
(the closed sentinel) and notifies the worker, which then joins. -/
def stop_and_join (s : TBState) : TBState :=
  { s with que := none }

/-- `ThreadData::wait_and_fill_buffer` fused with the `new_slice` call of
`thread_loop`: on a closed queue it returns `false` (the worker exits); on
an open empty queue it waits on the condvar (modelled as no state change,
result `none`); otherwise it drains `min (q.length) BUFFER_SIZE` bytes into
the worker scratch, which `thread_loop` hands to the receiver and clears. -/
def wait_and_fill_buffer (s : TBState) : TBState × Option Bool :=
  match s.que with
  | none => (s, some false)
  | some [] => (s, none)
  | some (b :: bs) =>
      let q := b :: bs
      let drain_len := min q.length BUFFER_SIZE
      (⟨some (q.drop drain_len), s.delivered ++ [q.take drain_len]⟩, some true)

/-- One atomic critical section of either thread. -/
inductive TBOp where
  | write (data : List Nat)
  | close
  | drain
deriving Repr, DecidableEq

def tbStep (s : TBState) : TBOp → TBState
  | TBOp.write d => (write_data s d).1
  | TBOp.close => stop_and_join s
  | TBOp.drain => (wait_and_fill_buffer s).1

def tbRun (s : TBState) (ops : List TBOp) : TBState :=
  ops.foldl tbStep s

/-- Concatenation of everything handed to `DataReceiver::new_slice`. -/
def deliveredBytes (s : TBState) : List Nat :=
  s.delivered.flatten

/-- The bytes submitted by `write_data` calls made before the first
`stop_and_join` of the trace, in submission order. -/
def writtenBeforeClose : List TBOp → List Nat
  | [] => []
  | TBOp.write d :: ops => d ++ writtenBeforeClose ops
  | TBOp.close :: _ => []
  | TBOp.drain :: ops => writtenBeforeClose ops

/-- Bytes a run starting at `s` will still accept: none when the queue is
already closed, otherwise exactly the writes before the first close. -/
def acceptedFrom (s : TBState) (ops : List TBOp) : List Nat :=
  match s.que with
  | none => []
  | some _ => writtenBeforeClose ops

def listPre (xs ys : List Nat) : Prop :=
  ∃ t, xs ++ t = ys

theorem listPre_refl (xs : List Nat) : listPre xs xs :=
  ⟨[], List.append_nil xs⟩

theorem listPre_of_append (xs t : List Nat) : listPre xs (xs ++ t) :=
  ⟨t, rfl⟩

theorem listPre_append_right (xs ys t : List Nat) (h : listPre xs ys) :
    listPre xs (ys ++ t) := by
  obtain ⟨u, hu⟩ := h
  exact ⟨u ++ t, by rw [← List.append_assoc, hu]⟩

def tbInv (s : TBState) (acc : List Nat) : Prop :=
  match s.que with
  | some q => deliveredBytes s ++ q = acc
  | none => listPre (deliveredBytes s) acc

/-- Bytes accepted by a single critical section: a write while the
queue is open appends its data, everything else appends nothing. -/
def acceptedOne (s : TBState) (op : TBOp) : List Nat :=
  match s.que, op with
  | some _, TBOp.write d => d
  | _, _ => []

theorem tbStep_closed (s : TBState) (op : TBOp) (h : s.que = none) :
    (tbStep s op).que = none ∧ (tbStep s op).delivered = s.delivered := by
  cases op with
  | write d => simp [tbStep, write_data, h]
  | close => simp [tbStep, stop_and_join]
  | drain => simp [tbStep, wait_and_fill_buffer, h]

theorem tbStep_inv (s : TBState) (acc : List Nat) (op : TBOp) (h : tbInv s acc) :
    tbInv (tbStep s op) (acc ++ acceptedOne s op) := by
  cases hq : s.que with
  | none =>
      obtain ⟨h1, h2⟩ := tbStep_closed s op hq
      have hpre : listPre (deliveredBytes s) acc := by
        simpa [tbInv, hq] using h
      simpa [tbInv, h1, deliveredBytes, h2, acceptedOne, hq] using hpre
  | some q =>
      have hacc : deliveredBytes s ++ q = acc := by
        simpa [tbInv, hq] using h
      cases op with
      | write d =>
          simp only [tbStep, write_data, hq, tbInv, acceptedOne]
          rw [← hacc]
          simp [deliveredBytes]
      | close =>
          simp only [tbStep, stop_and_join, tbInv, acceptedOne, hq]
          rw [← hacc]
          simpa using listPre_of_append (deliveredBytes s) q
      | drain =>
          cases q with
          | nil =>
              simp [tbStep, wait_and_fill_buffer, hq, tbInv, acceptedOne, hacc]
          | cons b bs =>
              simp only [tbStep, wait_and_fill_buffer, hq, tbInv, acceptedOne]
              rw [← hacc]
              simp [deliveredBytes, List.append_assoc]

theorem tbStep_que_none_iff (s : TBState) (op : TBOp) :
    (tbStep s op).que = none ↔ (s.que = none ∨ op = TBOp.close) := by
  cases hq : s.que with
  | none =>
      simpa [hq] using (tbStep_closed s op hq).1
  | some q =>
      cases op with
      | write d => simp [tbStep, write_data, hq]
      | close => simp [tbStep, stop_and_join]
      | drain =>
          cases q with
          | nil => simp [tbStep, wait_and_fill_buffer, hq]
          | cons b bs => simp [tbStep, wait_and_fill_buffer, hq]

theorem acceptedFrom_cons (s : TBState) (op : TBOp) (ops : List TBOp) :
    acceptedFrom s (op :: ops) = acceptedOne s op ++ acceptedFrom (tbStep s op) ops := by
  cases hq : s.que with
  | none =>
      have h1 := (tbStep_closed s op hq).1
      simp [acceptedFrom, hq, acceptedOne, h1]
  | some q =>
      cases op with
      | write d =>
          have hq' : (tbStep s (TBOp.write d)).que = some (q ++ d) := by
            simp [tbStep, write_data, hq]
          simp [acceptedFrom, hq, acceptedOne, hq', writtenBeforeClose]
      | close =>
          have h1 : (tbStep s TBOp.close).que = none := by
            simp [tbStep, stop_and_join]
          simp [acceptedFrom, hq, acceptedOne, h1, writtenBeforeClose]
      | drain =>
          have h1 : ∃ q', (tbStep s TBOp.drain).que = some q' := by
            cases q with
            | nil => exact ⟨[], by simp [tbStep, wait_and_fill_buffer, hq]⟩
            | cons b bs =>
                refine ⟨(b :: bs).drop (min (b :: bs).length BUFFER_SIZE), ?_⟩
                simp [tbStep, wait_and_fill_buffer, hq]
          obtain ⟨q', hq'⟩ := h1
          simp [acceptedFrom, hq, acceptedOne, hq', writtenBeforeClose]

theorem tbRun_inv (ops : List TBOp) :
    ∀ (s : TBState) (acc : List Nat), tbInv s acc →
      tbInv (tbRun s ops) (acc ++ acceptedFrom s ops) := by
  induction ops with
  | nil =>
      intro s acc h
      cases hq : s.que with
      | none => simpa [tbRun, acceptedFrom, hq] using h
      | some q => simp [tbRun, acceptedFrom, hq, writtenBeforeClose, h]
  | cons op ops ih =>
      intro s acc h
      have hstep := tbStep_inv s acc op h
      have := ih (tbStep s op) (acc ++ acceptedOne s op) hstep
      rw [acceptedFrom_cons s op ops]
      simpa [tbRun, List.append_assoc] using this

theorem tbRun_inv_init (ops : List TBOp) :
    tbInv (tbRun TBState.init ops) (writtenBeforeClose ops) := by
  have h0 : tbInv TBState.init [] := by
    simp [tbInv, TBState.init, deliveredBytes]
  have := tbRun_inv ops TBState.init [] h0
  simpa [acceptedFrom, TBState.init] using this

theorem tbStep_chunk_bound (s : TBState) (op : TBOp)
    (h : ∀ c ∈ s.delivered, c.length ≤ BUFFER_SIZE) :
    ∀ c ∈ (tbStep s op).delivered, c.length ≤ BUFFER_SIZE := by
  cases op with
  | write d =>
      intro c hc
      apply h
      cases hq : s.que <;> simpa [tbStep, write_data, hq] using hc
  | close =>
      intro c hc
      exact h c (by simpa [tbStep, stop_and_join] using hc)
  | drain =>
      intro c hc
      cases hq : s.que with
      | none => exact h c (by simpa [tbStep, wait_and_fill_buffer, hq] using hc)
      | some q =>
          cases q with
          | nil => exact h c (by simpa [tbStep, wait_and_fill_buffer, hq] using hc)
          | cons b bs =>
              rw [show (tbStep s TBOp.drain).delivered =
                  s.delivered ++ [(b :: bs).take (min (b :: bs).length BUFFER_SIZE)] by
                simp [tbStep, wait_and_fill_buffer, hq]] at hc
              rcases List.mem_append.mp hc with hmem | hmem
              · exact h c hmem
              · have hceq : c = (b :: bs).take (min (b :: bs).length BUFFER_SIZE) := by
                  simpa using hmem
                subst hceq
                simp only [List.length_take]
                omega

theorem tbRun_chunk_bound (ops : List TBOp) :
    ∀ s : TBState, (∀ c ∈ s.delivered, c.length ≤ BUFFER_SIZE) →
      ∀ c ∈ (tbRun s ops).delivered, c.length ≤ BUFFER_SIZE := by
  induction ops with
  | nil => intro s h; simpa [tbRun] using h
  | cons op ops ih =>
      intro s h
      simpa [tbRun] using ih (tbStep s op) (tbStep_chunk_bound s op h)

theorem tbStep_closed_eq (s : TBState) (op : TBOp) (h : s.que = none) :
    tbStep s op = s := by
  obtain ⟨que, del⟩ := s
  cases que with
  | none =>
      cases op with
      | write d => simp [tbStep, write_data]
      | close => simp [tbStep, stop_and_join]
      | drain => simp [tbStep, wait_and_fill_buffer]
  | some q => simp at h

theorem tbRun_closed (ops : List TBOp) :
    ∀ s : TBState, s.que = none → tbRun s ops = s := by
  induction ops with
  | nil => intro s _; rfl
  | cons op ops ih =>
      intro s h
      rw [show tbRun s (op :: ops) = tbRun (tbStep s op) ops from rfl,
        tbStep_closed_eq s op h]
      exact ih s h

/-- C1: over every interleaving of producer writes, a close and worker
drain steps, the bytes handed to `DataReceiver::new_slice`, concatenated
in call order, form a prefix of the bytes passed to `write_data` before
the queue was closed, concatenated in submission order (FIFO, no
reordering, no duplication); and every delivered chunk holds at most
`BUFFER_SIZE = 4096` bytes. -/
theorem c1_fifo_prefix_and_chunk_bound (ops : List TBOp) :
    listPre (deliveredBytes (tbRun TBState.init ops)) (writtenBeforeClose ops) ∧
    ∀ c ∈ (tbRun TBState.init ops).delivered, c.length ≤ BUFFER_SIZE := by
  constructor
  · have h := tbRun_inv_init ops
    cases hq : (tbRun TBState.init ops).que with
    | none => simpa [tbInv, hq] using h
    | some q =>
        have heq : deliveredBytes (tbRun TBState.init ops) ++ q = writtenBeforeClose ops := by
          simpa [tbInv, hq] using h
        rw [← heq]
        exact listPre_of_append _ _
  · exact tbRun_chunk_bound ops TBState.init (by simp [TBState.init])

/-- C2: once `stop_and_join` has installed the closed sentinel
(`que = none`), `write_data` leaves the state unchanged and still returns
`Ok(())`, no interleaving of further operations changes the state (so
none of those bytes ever reaches the receiver), and the worker's queue
wait `wait_and_fill_buffer` reports the closed state (`false`), now and
after any further operations — it never again yields data. -/
theorem c2_closed_queue_terminal (s : TBState) (d : List Nat) (ops : List TBOp)
    (h : s.que = none) :
    write_data s d = (s, Except.ok ()) ∧
    tbRun s ops = s ∧
    (wait_and_fill_buffer s).2 = some false ∧
    (wait_and_fill_buffer (tbRun s ops)).2 = some false := by
  refine ⟨?_, tbRun_closed ops s h, ?_, ?_⟩
  · simp [write_data, h]
  · simp [wait_and_fill_buffer, h]
  · rw [tbRun_closed ops s h]
    simp [wait_and_fill_buffer, h]

theorem c2_closed_queue_terminal_witness :
    write_data ⟨none, [[1, 2]]⟩ [3] = (⟨none, [[1, 2]]⟩, Except.ok ()) ∧
    tbRun ⟨none, [[1, 2]]⟩ [TBOp.write [4], TBOp.drain, TBOp.close] = ⟨none, [[1, 2]]⟩ ∧
    (wait_and_fill_buffer ⟨none, [[1, 2]]⟩).2 = some false ∧
    (wait_and_fill_buffer (tbRun ⟨none, [[1, 2]]⟩
      [TBOp.write [4], TBOp.drain, TBOp.close])).2 = some false :=
  c2_closed_queue_terminal ⟨none, [[1, 2]]⟩ [3]
    [TBOp.write [4], TBOp.drain, TBOp.close] rfl

/-- C3 is false on the code: `stop_and_join` replaces the queue with the
closed sentinel, so a byte written before the close but not yet drained
by the worker is discarded, never delivered.  Here byte `1` is enqueued
before the close, yet after the close the worker's drain steps deliver
nothing and the queue is closed. -/
theorem c3_counterexample :
    writtenBeforeClose [TBOp.write [1], TBOp.close, TBOp.drain, TBOp.drain] = [1] ∧
    (tbRun TBState.init [TBOp.write [1], TBOp.close, TBOp.drain, TBOp.drain]).delivered = [] ∧
    (tbRun TBState.init [TBOp.write [1], TBOp.close, TBOp.drain, TBOp.drain]).que = none := by
  refine ⟨rfl, ?_, ?_⟩ <;> rfl

/-- C3 amended: when `stop_and_join` closes the queue, the bytes still
pending in it are discarded, not drained: after the close the state is
exactly the closed sentinel with the chunks delivered so far, whatever
the worker does next.  Only data the worker had already drained before
the close is ever delivered. -/
theorem c3_amended_close_discards_pending (q : List Nat) (del : List (List Nat))
    (ops : List TBOp) :
    tbRun ⟨some q, del⟩ (TBOp.close :: ops) = ⟨none, del⟩ := by
  rw [show tbRun ⟨some q, del⟩ (TBOp.close :: ops)
      = tbRun (tbStep ⟨some q, del⟩ TBOp.close) ops from rfl]
  rw [show tbStep ⟨some q, del⟩ TBOp.close = ⟨none, del⟩ by simp [tbStep, stop_and_join]]
  exact tbRun_closed ops ⟨none, del⟩ rfl

/-! ## Capture / playback endpoint (src/alsa/mod.rs)

`SndPcm::read_interleaved` and `SndPcm::write_i` loop over calls into the
kernel (`snd_pcm_readi` / `snd_pcm_writei`).  The device is modelled as a
list of the successive return values of those calls (`snd_pcm_sframes_t`:
a non-negative frame count or a negated errno); `snd_pcm_wait` is modelled
as succeeding.  For `write_i` each return value is paired with the
`PcmState` that a status query (`SndPcmStatus::get_state`) would observe at
that point, consulted only on the EPIPE branch.  Running out of modelled
return values with bytes still owed yields `none` (the loop is still
going); `usize` arithmetic wraps modulo `2 ^ 64` exactly where the Rust
release build wraps. -/

namespace Alsa

inductive Format where
  | U8
  | S16Le
  | FloatLe
deriving Repr, DecidableEq

def Format.bytes_per_sample : Format → Nat
  | Format.U8 => 1
  | Format.S16Le => 2
  | Format.FloatLe => 4

structure Params where
  format : Format
  channels : Nat
  rate : Nat
deriving Repr, DecidableEq

def bytes_per_frame (p : Params) : Nat :=
  p.format.bytes_per_sample * p.channels

def bytes_qty_to_frames_qty (p : Params) (bytes_qty : Nat) : Nat :=
  bytes_qty / bytes_per_frame p

def frames_qty_to_bytes_qty (p : Params) (frames_qty : Nat) : Nat :=
  frames_qty * bytes_per_frame p

def EAGAIN : Int := 11

def EPIPE : Int := 32

inductive PcmState where
  | Open
  | Setup
  | Prepared
  | Running
  | XRun
  | Draining
  | Paused
  | Suspended
  | Disconnected
deriving Repr, DecidableEq

/-- `SndPcm::xrun`: query the PCM status; when the state is `XRun`, log and
`prepare()` (recovery succeeds), otherwise surface the original errno. -/
def xrun (st : PcmState) (errnum : Int) : Except Int Unit :=
  if st = PcmState.XRun then Except.ok () else Except.error errnum

/-- The read loop of `SndPcm::read_interleaved`: while bytes remain, call
`snd_pcm_readi`; on `-EAGAIN` wait and retry; on any other negative return
surface it (`try_snd!`); otherwise subtract `res * bytes_per_frame`. -/
def read_loop (p : Params) : Nat → List Int → Option (Except Int Unit)
  | b, [] => if b = 0 then some (Except.ok ()) else none
  | b, res :: rest =>
      if b = 0 then some (Except.ok ())
      else if res = -EAGAIN then read_loop p b rest
      else if res < 0 then some (Except.error res)
      else read_loop p (b - frames_qty_to_bytes_qty p res.toNat) rest

/-- `SndPcm::read_interleaved`: rounds the destination length down to a
whole number of frames, runs the read loop for that many bytes and, on
success, returns that byte count. -/
def read_interleaved (p : Params) (dst_len : Nat) (dev : List Int) :
    Option (Except Int Nat) :=
  match read_loop p (frames_qty_to_bytes_qty p (bytes_qty_to_frames_qty p dst_len)) dev with
  | some (Except.ok ()) =>
      some (Except.ok (frames_qty_to_bytes_qty p (bytes_qty_to_frames_qty p dst_len)))
  | some (Except.error e) => some (Except.error e)
  | none => none

def usize_of_int (i : Int) : Nat :=
  (i % (2 ^ 64 : Int)).toNat

def wrap_mul (a b : Nat) : Nat :=
  (a * b) % 2 ^ 64

def wrap_sub (a b : Nat) : Nat :=
  (a % 2 ^ 64 + 2 ^ 64 - b % 2 ^ 64) % 2 ^ 64

/-- The byte-accounting step of `SndPcm::write_i` exactly as written:
`bytes_written = frames_qty_to_bytes_qty(res)` reinterprets the raw return
value as `usize` (`res as usize`, two's complement) and multiplies, then
`bytes_to_write -= bytes_written`; both wrap in a release build.  The code
reaches this line for every return that is neither `-EAGAIN` nor
`-EPIPE`, with no sign check. -/
def write_i_step_bytes (bpf bytes_to_write : Nat) (res : Int) : Nat :=
  wrap_sub bytes_to_write (wrap_mul (usize_of_int res) bpf)

/-- The write loop of `SndPcm::write_i`: on `-EAGAIN` wait and retry; on
`-EPIPE` run `xrun` recovery and retry; every other return value, negative
ones included, falls through to the byte-accounting step. -/
def write_i_loop (bpf : Nat) : Nat → List (Int × PcmState) → Option (Except Int Unit)
  | b, [] => if b = 0 then some (Except.ok ()) else none
  | b, (res, st) :: rest =>
      if b = 0 then some (Except.ok ())
      else if res = -EAGAIN then write_i_loop bpf b rest
      else if res = -EPIPE then
        match xrun st res with
        | Except.ok () => write_i_loop bpf b rest
        | Except.error e => some (Except.error e)
      else write_i_loop bpf (write_i_step_bytes bpf b res) rest

/-- C4: whenever `read_interleaved` succeeds with `Ok(n)`, the count `n`
is `floor(len(dst) / bytes_per_frame) * bytes_per_frame` — the read is
frame-aligned and never short of that count. -/
theorem c4_read_interleaved_returns_full_aligned_count (p : Params) (dst_len : Nat)
    (dev : List Int) (n : Nat)
    (h : read_interleaved p dst_len dev = some (Except.ok n)) :
    n = dst_len / bytes_per_frame p * bytes_per_frame p ∧
    n % bytes_per_frame p = 0 := by
  have hn : n = frames_qty_to_bytes_qty p (bytes_qty_to_frames_qty p dst_len) := by
    unfold read_interleaved at h
    cases hr : read_loop p (frames_qty_to_bytes_qty p (bytes_qty_to_frames_qty p dst_len)) dev with
    | none => rw [hr] at h; simp at h
    | some r =>
        cases r with
        | ok u => rw [hr] at h; simpa using h.symm
        | error e => rw [hr] at h; simp at h
  subst hn
  refine ⟨rfl, ?_⟩
  simp [frames_qty_to_bytes_qty, bytes_qty_to_frames_qty, Nat.mul_mod_left]

theorem c4_read_interleaved_returns_full_aligned_count_witness :
    16 = 20 / bytes_per_frame ⟨Format.FloatLe, 2, 44100⟩
        * bytes_per_frame ⟨Format.FloatLe, 2, 44100⟩ ∧
    16 % bytes_per_frame ⟨Format.FloatLe, 2, 44100⟩ = 0 :=
  c4_read_interleaved_returns_full_aligned_count ⟨Format.FloatLe, 2, 44100⟩ 20 [2] 16 rfl

/-- C5 is false on the code: `read_interleaved` has no EPIPE branch — an
`-EPIPE` return from `snd_pcm_readi` falls into the general `try_snd!`
path and is surfaced as a capture error immediately, with no status query
and no `prepare()`, even though the device would have delivered the
remaining frames afterwards. -/
theorem c5_counterexample :
    read_interleaved ⟨Format.FloatLe, 2, 44100⟩ 16 [-EPIPE, 2] =
      some (Except.error (-EPIPE)) := rfl

/-- C5 amended: in `read_interleaved` only `-EAGAIN` is retried; every
other negative return, `-EPIPE` included, is surfaced as a capture error.
Xrun recovery (status query, then `prepare()` when the state is `XRun`)
is invoked only by the playback write loop `write_i`, which retries after
a recovered `-EPIPE`. -/
theorem c5_amended_epipe_surfaced_in_read (p : Params) (b : Nat) (r : Int)
    (rest : List Int) (bpf btw : Nat) (devw : List (Int × PcmState))
    (hb : 0 < b) (hr : r < 0) (hne : r ≠ -EAGAIN) (hbtw : 0 < btw) :
    read_loop p b (r :: rest) = some (Except.error r) ∧
    write_i_loop bpf btw ((-EPIPE, PcmState.XRun) :: devw) = write_i_loop bpf btw devw := by
  constructor
  · unfold read_loop
    rw [if_neg (Nat.pos_iff_ne_zero.mp hb), if_neg hne, if_pos hr]
  · conv_lhs => rw [write_i_loop]
    have h1 : ¬((-EPIPE : Int) = -EAGAIN) := by decide
    simp [h1, xrun, Nat.pos_iff_ne_zero.mp hbtw]

theorem c5_amended_epipe_surfaced_in_read_witness :
    read_loop ⟨Format.FloatLe, 2, 44100⟩ 16 [-EPIPE, 2] = some (Except.error (-EPIPE)) ∧
    write_i_loop 8 16 [(-EPIPE, PcmState.XRun), (2, PcmState.Running)] =
      write_i_loop 8 16 [(2, PcmState.Running)] :=
  c5_amended_epipe_surfaced_in_read ⟨Format.FloatLe, 2, 44100⟩ 16 (-EPIPE) [2] 8 16
    [(2, PcmState.Running)] (by decide) (by decide) (by decide) (by decide)

/-- C6 is violated by the code: `write_i` never checks for negative
returns other than `-EAGAIN`/`-EPIPE`, so for example a `-5` (EIO) return
reaches the accounting step, which computes
`bytes_written = ((-5) as usize) * 4` (wrapping) and subtracts it from the
8 bytes still owed, leaving `bytes_to_write = 28 > 8` — an underflowed
counter larger than the remaining buffer — and the loop keeps going
instead of surfacing an error (a debug build panics on the overflow; a
release build then indexes the 8-byte buffer out of bounds). -/
theorem c6_write_i_negative_return_not_surfaced :
    write_i_step_bytes 4 8 (-5) = 28 ∧
    8 < write_i_step_bytes 4 8 (-5) ∧
    write_i_loop 4 8 [(-5, PcmState.Running)] = none := by
  refine ⟨by decide, by decide, rfl⟩

end Alsa

/-! ## Fan-out datagram server (src/net_server/mod.rs)

Peer addresses (`SocketAddr`) are abstracted as naturals.  The client
registry is `PollLoop::clients : Vec<SocketAddr>`, a plain list.  The
outcome of one `UdpSocket::send_to` per peer is modelled by a predicate
`fails` on addresses; `Vec::remove(idx)` panics when `idx` is out of
bounds, modelled by `Option` (`none` = panic). -/

namespace NetServer

/-- `PollLoop::add_new_client`: look the sender up by equality; when
present, log and leave the registry alone; when absent, push it. -/
def add_new_client (clients : List Nat) (addr : Nat) : List Nat :=
  if addr ∈ clients then clients else clients ++ [addr]

/-- `PollLoop::remove_client`: `clients.retain(|&r| r != *addr)`. -/
def remove_client (clients : List Nat) (addr : Nat) : List Nat :=
  clients.filter (fun r => r != addr)

/-- `Vec::remove(i)`: removes and returns the element at `i`, shifting the
tail left; panics (`none`) when `i` is out of bounds. -/
def vec_remove (l : List Nat) (i : Nat) : Option (List Nat) :=
  if i < l.length then some (l.eraseIdx i) else none

def remove_indices : List Nat → List Nat → Option (List Nat)
  | clients, [] => some clients
  | clients, i :: is =>
      match vec_remove clients i with
      | some l => remove_indices l is
      | none => none

/-- The indices collected by `send_new_data` for one block: iterate the
registry with `enumerate`, pushing `idx` for every peer whose send
failed (ascending order). -/
def clients_to_remove (clients : List Nat) (fails : Nat → Bool) : List Nat :=
  (clients.enum.filter (fun p => fails p.2)).map Prod.fst

/-- The per-block body of `PollLoop::send_new_data`: send the block to
every registered peer, collect the indices of the failing peers, then
remove them one by one with `Vec::remove` — using the indices computed
before any removal. -/
def send_block (clients : List Nat) (fails : Nat → Bool) : Option (List Nat) :=
  remove_indices clients (clients_to_remove clients fails)

/-- C7 is violated by the code: the removal loop reuses indices computed
against the registry before any removal, so each `Vec::remove` shifts the
survivors and later indices hit the wrong peers.  With registry
`[0, 1, 2]` and the sends to peers `0` and `1` failing, the code removes
peer `0` and then the peer now at index `1` — peer `2`, whose send
succeeded — leaving `[1]` instead of `[2]`; when all three sends fail the
third removal indexes past the end and `Vec::remove` panics. -/
theorem c7_stale_index_removal :
    send_block [0, 1, 2] (fun a => decide (a < 2)) = some [1] ∧
    send_block [0, 1, 2] (fun a => decide (a < 2)) ≠ some [2] ∧
    send_block [0, 1, 2] (fun _ => true) = none := by
  refine ⟨rfl, by decide, rfl⟩

/-- Processing the `start` control datagram from the same address `n`
times in a row. -/
def apply_starts : Nat → List Nat → Nat → List Nat
  | 0, l, _ => l
  | n + 1, l, a => apply_starts n (add_new_client l a) a

theorem mem_add_new_client (l : List Nat) (a : Nat) : a ∈ add_new_client l a := by
  unfold add_new_client
  by_cases h : a ∈ l
  · simp [h]
  · simp [h]

theorem add_new_client_idem (l : List Nat) (a : Nat) :
    add_new_client (add_new_client l a) a = add_new_client l a := by
  unfold add_new_client
  by_cases h : a ∈ l
  · simp [h]
  · simp [h]

theorem add_new_client_nodup (l : List Nat) (a : Nat) (hl : l.Nodup) :
    (add_new_client l a).Nodup := by
  unfold add_new_client
  by_cases h : a ∈ l
  · simpa [h]
  · simp [h, List.nodup_append, hl]

theorem apply_starts_fixed (n : Nat) :
    ∀ (l : List Nat) (a : Nat), apply_starts n (add_new_client l a) a = add_new_client l a := by
  induction n with
  | zero => intro l a; rfl
  | succ m ih =>
      intro l a
      rw [show apply_starts (m + 1) (add_new_client l a) a
          = apply_starts m (add_new_client (add_new_client l a) a) a from rfl,
        add_new_client_idem]
      exact ih l a

theorem apply_starts_eq_one (n : Nat) (l : List Nat) (a : Nat) (hn : 1 ≤ n) :
    apply_starts n l a = add_new_client l a := by
  cases n with
  | zero => omega
  | succ m =>
      rw [show apply_starts (m + 1) l a = apply_starts m (add_new_client l a) a from rfl]
      exact apply_starts_fixed m l a

/-- C8: the registry never holds duplicate addresses — receiving `start`
`n ≥ 1` times from the same address yields the same registry as receiving
it once, with that address registered exactly once and no duplicates —
and receiving `stop` from an address not in the registry leaves it
unchanged. -/
theorem c8_registry_dedup (l : List Nat) (a b : Nat) (n : Nat)
    (hl : l.Nodup) (hn : 1 ≤ n) (hb : b ∉ l) :
    (apply_starts n l a).Nodup ∧
    apply_starts n l a = add_new_client l a ∧
    (apply_starts n l a).count a = 1 ∧
    remove_client l b = l := by
  have he := apply_starts_eq_one n l a hn
  refine ⟨?_, he, ?_, ?_⟩
  · rw [he]
    exact add_new_client_nodup l a hl
  · rw [he]
    exact List.count_eq_one_of_mem (add_new_client_nodup l a hl) (mem_add_new_client l a)
  · apply List.filter_eq_self.mpr
    intro x hx
    simp only [bne_iff_ne, ne_eq]
    intro hxb
    exact hb (hxb ▸ hx)

theorem c8_registry_dedup_witness :
    (apply_starts 3 [5] 7).Nodup ∧
    apply_starts 3 [5] 7 = add_new_client [5] 7 ∧
    (apply_starts 3 [5] 7).count 7 = 1 ∧
    remove_client [5] 9 = [5] :=
  c8_registry_dedup [5] 7 9 3 (by decide) (by decide) (by decide)

/-- `NetServer::send_to_all` state: the lock-protected `SendQueue` (the
`to_send` FIFO of payload blocks and the `free` list of cleared blocks)
plus whether the outbound-readiness handle has been raised. -/
structure SendQueue where
  to_send : List (List Nat)
  free : List (List Nat)
deriving Repr, DecidableEq

structure NetServerState where
  que : SendQueue
  readiness_raised : Bool
deriving Repr, DecidableEq

/-- `NetServer::send_to_all`: an empty payload returns `Ok(())` at once;
otherwise pop a scratch block off the back of the free list (or allocate),
fill it with the payload, push it on `to_send`, and raise the
outbound-readiness handle. -/
def send_to_all (s : NetServerState) (buf : List Nat) : NetServerState × Except Unit Unit :=
  if buf.isEmpty then (s, Except.ok ())
  else
    ({ que := { to_send := s.que.to_send ++ [(s.que.free.getLast?).getD [] ++ buf],
                free := s.que.free.dropLast },
       readiness_raised := true }, Except.ok ())

/-- C10: `send_to_all` on an empty byte slice returns `Ok(())` and leaves
the server state untouched: nothing is appended to `to_send`, no block is
taken from the free list, and the outbound-readiness signal is not
raised. -/
theorem c10_send_to_all_empty_noop (s : NetServerState) :
    send_to_all s [] = (s, Except.ok ()) := by
  simp [send_to_all]

end NetServer

/-! ## Codec adapter (src/ffmpeg/codec.rs)

`AvCodecContext::set_and_validate_sample_fmt` negotiates the encoder's
sample format against the codec's supported set
(`AvCodec::get_supported_sample_formats`). -/

namespace Ffmpeg

/-- The codec layer's sample format.  The three interleaved variants are
`ffmpeg::AudioSampleFormat` from the source; the planar variants are
modelled from the spec: the enum revision with planar variants and its
helpers is not among the files under src/ (codec.rs only calls them) —
spec §3: the codec layer additionally recognizes planar variants
`{U8P, S16LEP, F32LEP}`. -/
inductive AudioSampleFormat where
  | U8
  | S16Le
  | FloatLe
  | U8P
  | S16LeP
  | FloatLeP
deriving Repr, DecidableEq

/-- Modelled from the spec: whether the format lays each channel out in
its own plane. -/
def AudioSampleFormat.is_planar : AudioSampleFormat → Bool
  | AudioSampleFormat.U8P => true
  | AudioSampleFormat.S16LeP => true
  | AudioSampleFormat.FloatLeP => true
  | _ => false

/-- Modelled from the spec: the planar variant of an interleaved format. -/
def AudioSampleFormat.to_planar : AudioSampleFormat → AudioSampleFormat
  | AudioSampleFormat.U8 => AudioSampleFormat.U8P
  | AudioSampleFormat.S16Le => AudioSampleFormat.S16LeP
  | AudioSampleFormat.FloatLe => AudioSampleFormat.FloatLeP
  | f => f

/-- Modelled from the spec: the interleaved variant of a planar format. -/
def AudioSampleFormat.to_interleaved : AudioSampleFormat → AudioSampleFormat
  | AudioSampleFormat.U8P => AudioSampleFormat.U8
  | AudioSampleFormat.S16LeP => AudioSampleFormat.S16Le
  | AudioSampleFormat.FloatLeP => AudioSampleFormat.FloatLe
  | f => f

structure UnsupportedSampleFormatError where
  fmt : AudioSampleFormat
  supported : List AudioSampleFormat
deriving Repr, DecidableEq

/-- `AvCodecContext::set_and_validate_sample_fmt`: reject a planar
request; else install the requested interleaved format when the codec
supports it; else install its planar variant when supported; else fail
with the supported set mapped to interleaved form. -/
def set_and_validate_sample_fmt (supported : List AudioSampleFormat)
    (format : AudioSampleFormat) :
    Except UnsupportedSampleFormatError AudioSampleFormat :=
  if format.is_planar then
    Except.error ⟨format, supported.map AudioSampleFormat.to_interleaved⟩
  else if format ∈ supported then
    Except.ok format
  else if format.to_planar ∈ supported then
    Except.ok format.to_planar
  else
    Except.error ⟨format, supported.map AudioSampleFormat.to_interleaved⟩

/-- C9: the sample-format negotiation — a planar request fails with
`UnsupportedSampleFormatError`; an interleaved request in the supported
set is selected as-is; otherwise its planar variant is selected when
supported; otherwise the construction fails with the supported set mapped
to interleaved form. -/
theorem c9_sample_format_negotiation (supported : List AudioSampleFormat)
    (format : AudioSampleFormat) :
    (format.is_planar = true →
      set_and_validate_sample_fmt supported format =
        Except.error ⟨format, supported.map AudioSampleFormat.to_interleaved⟩) ∧
    (format.is_planar = false → format ∈ supported →
      set_and_validate_sample_fmt supported format = Except.ok format) ∧
    (format.is_planar = false → format ∉ supported → format.to_planar ∈ supported →
      set_and_validate_sample_fmt supported format = Except.ok format.to_planar) ∧
    (format.is_planar = false → format ∉ supported → format.to_planar ∉ supported →
      set_and_validate_sample_fmt supported format =
        Except.error ⟨format, supported.map AudioSampleFormat.to_interleaved⟩) := by
  refine ⟨?_, ?_, ?_, ?_⟩
  · intro h1
    simp [set_and_validate_sample_fmt, h1]
  · intro h1 h2
    simp [set_and_validate_sample_fmt, h1, h2]
  · intro h1 h2 h3
    simp [set_and_validate_sample_fmt, h1, h2, h3]
  · intro h1 h2 h3
    simp [set_and_validate_sample_fmt, h1, h2, h3]

theorem c9_sample_format_negotiation_witness :
    set_and_validate_sample_fmt [AudioSampleFormat.S16LeP] AudioSampleFormat.S16Le =
      Except.ok (AudioSampleFormat.to_planar AudioSampleFormat.S16Le) :=
  (c9_sample_format_negotiation [AudioSampleFormat.S16LeP] AudioSampleFormat.S16Le).2.2.1
    rfl (by decide) (by decide)

end Ffmpeg

end StreamAudio
